import Mathlib

/-!
A verification model of the `getoptx` command-line parsing library.

The development shallowly embeds the library's two layers:

* the flat option layer (`newParserWrapper`, `positionalArgumentsChecker`,
  `maybeAddHelpFlags`): reflection over a tagged option record is modelled
  by an explicit list of `StructField`s carrying the `doc:`/`short:`/
  `required:` tags, and the external `pborman/getopt` scanner is modelled
  from the spec's Flat Option Parser contract;
* the subcommand layer (`Command`, `Subcommand`, `LeafSubcommand`,
  `CommandParser.getoptall`, `CommandParser.Getopt`) together with the help
  renderer (`printHelp` and friends).

Machine integers are modelled with `Int`/`Nat` (`math.MaxInt` becomes
`2 ^ 63 - 1`); Go errors become `Except`; the mutable transient help-flag
cell on a node is modelled functionally: the flat parse returns whether the
bound help flag fired during this parse.
-/

namespace Getoptx

/-- Decidable equality for `Except`, needed to evaluate outcomes. -/
instance {ε α : Type} [DecidableEq ε] [DecidableEq α] : DecidableEq (Except ε α)
  | .ok a, .ok b =>
    if h : a = b then .isTrue (by rw [h]) else .isFalse (fun hc => by cases hc; exact h rfl)
  | .error a, .error b =>
    if h : a = b then .isTrue (by rw [h]) else .isFalse (fun hc => by cases hc; exact h rfl)
  | .ok _, .error _ => .isFalse (fun hc => by cases hc)
  | .error _, .ok _ => .isFalse (fun hc => by cases hc)

/-- `math.MaxInt` on a 64-bit platform: `2 ^ 63 - 1`. -/
def maxInt : Int := 2 ^ 63 - 1

/-- The two positional-argument policy errors
(`ErrTooFewPositionalArguments` / `ErrTooManyPositionalArguments`). -/
inductive PacError where
  | tooFew
  | tooMany
deriving DecidableEq

/-- Display text of a positional-argument policy error. -/
def pacErrMsg : PacError → String
  | .tooFew => "too few positional arguments"
  | .tooMany => "too many positional arguments"

/-- `positionalArgumentsChecker`: inclusive `{minArgs, maxArgs}` bounds on
the number of residual positional arguments. -/
structure PositionalArgumentsChecker where
  minArgs : Int
  maxArgs : Int
deriving DecidableEq

/-- `newPositionalArgumentsChecker`: the default checker, `-1` as the
"no lower bound enforcement" sentinel and `math.MaxInt` above. -/
def newPositionalArgumentsChecker : PositionalArgumentsChecker :=
  { minArgs := -1, maxArgs := maxInt }

/-- `positionalArgumentsChecker.check`: the observed count (`NArgs()`, a
nonnegative integer) against the bounds, low bound first. -/
def PositionalArgumentsChecker.check
    (pac : PositionalArgumentsChecker) (count : Nat) : Option PacError :=
  if (count : Int) < pac.minArgs then some .tooFew
  else if (count : Int) > pac.maxArgs then some .tooMany
  else none

/-- The `NoPositionalArguments()` config preset. -/
def NoPositionalArguments : PositionalArgumentsChecker := { minArgs := 0, maxArgs := 0 }

/-- The `AtLeastOnePositionalArgument()` config preset. -/
def AtLeastOnePositionalArgument : PositionalArgumentsChecker :=
  { minArgs := 1, maxArgs := maxInt }

/-- The `JustOnePositionalArgument()` config preset. -/
def JustOnePositionalArgument : PositionalArgumentsChecker := { minArgs := 1, maxArgs := 1 }

/-- One field of a `flags` record, as seen by `newParserWrapper` through
reflection: the Go field identifier, the `doc:"..."`, `short:"..."` and
`required:"..."` tags, and whether the bound Go type registers as a
valueless flag (a `bool` field, or a `Counter` put in flag mode). -/
structure StructField where
  name : String
  doc : String
  short : String
  requiredTag : String
  isFlag : Bool
deriving DecidableEq

/-- Construction-time errors of `newParserWrapper`'s field loop. -/
inductive BuildError where
  | missingDocumentation
  | invalidShortName
deriving DecidableEq

/-- Display text of a construction-time error (the `errors.New` strings). -/
def buildErrMsg : BuildError → String
  | .missingDocumentation => "there is a field without documentation"
  | .invalidShortName => "the short tag's value must contain a single-byte string"

/-- Lowercase an ASCII letter (identity elsewhere). -/
def lowerChar (c : Char) : Char :=
  if 65 ≤ c.toNat ∧ c.toNat ≤ 90 then Char.ofNat (c.toNat + 32) else c

/-- Is `c` an ASCII uppercase letter? -/
def isUpperChar (c : Char) : Bool := decide (65 ≤ c.toNat ∧ c.toNat ≤ 90)

/-- Modelled from the spec: the external `strcase.ToKebab` collaborator that
kebab-cases a Go field identifier (simplified to: a dash before each interior
uppercase letter, everything lowercased). -/
def toKebab (s : String) : String :=
  String.mk (s.data.foldl
    (fun acc c =>
      if isUpperChar c then
        (if acc.isEmpty then [lowerChar c] else acc ++ ['-', lowerChar c])
      else acc ++ [c]) [])

/-- The rune decoded by `utf8.DecodeRune` from a single-byte `short` tag
(rendered back as the option's short-name string, empty when absent). -/
def decodeShort (s : String) : String :=
  match s.data with
  | [c] => String.singleton c
  | _ => ""

/-- One registered option: long name, optional short name, documentation,
flag-ness (valueless) and whether it was marked mandatory. -/
structure OptionDesc where
  longName : String
  shortName : String
  doc : String
  isFlag : Bool
  required : Bool
deriving DecidableEq

/-- The field loop of `newParserWrapper` (steps 4-8): skip `doc:"-"` fields,
reject undocumented fields, reject `short` tags that are not a single byte
(`len(shortName) != 1` in Go is a byte-length test), kebab-case the field
name into the long option name, record the documentation and the
`required:"true"` marking. Fields are processed in declaration order and the
first offending field determines the error. -/
def buildDescriptors : List StructField → Except BuildError (List OptionDesc)
  | [] => .ok []
  | f :: rest =>
    if f.doc == "-" then buildDescriptors rest
    else if f.doc == "" then .error .missingDocumentation
    else if f.short != "" && f.short.utf8ByteSize != 1 then .error .invalidShortName
    else
      match buildDescriptors rest with
      | .error e => .error e
      | .ok ds =>
        .ok ({ longName := toKebab f.name, shortName := decodeShort f.short,
               doc := f.doc, isFlag := f.isFlag,
               required := f.requiredTag == "true" } :: ds)

/-- The `-h`, `--help` option synthesized by `maybeAddHelpFlags`. -/
def helpOption : OptionDesc :=
  { longName := "help", shortName := "h", doc := "Prints this help message",
    isFlag := true, required := false }

/-- `parserWrapper.maybeAddHelpFlags`: visit all registered options looking
for a short name `"h"` or a long name `"help"`; when none is found, register
the synthesized help option (bound to the node's help cell) and report
`true`, otherwise leave the set unchanged and report `false`. -/
def maybeAddHelpFlags (opts : List OptionDesc) : List OptionDesc × Bool :=
  let found := opts.foldl
    (fun acc o => acc || o.shortName == "h" || o.longName == "help") false
  if found then (opts, false) else (opts ++ [helpOption], true)

/-- `parserWrapper.numOptions`: the size of the `docs` map, i.e. the number
of distinct registered long names. -/
def countDocs (ds : List OptionDesc) : Nat := ((ds.map (·.longName)).eraseDups).length

/-- Modelled from the spec: parse-time errors of the external Flat Option
Parser (unknown flag, missing required value, omitted mandatory option),
plus the wrapper-level positional-policy violations surfaced by
`parserWrapper.Getopt`. -/
inductive FlatError where
  | unknownOption (tok : String)
  | missingValue (longName : String)
  | missingRequired (longName : String)
  | pacViolation (e : PacError)
deriving DecidableEq

/-- Display text of a flat parse error. -/
def flatErrMsg : FlatError → String
  | .unknownOption tok => "unknown option: " ++ tok
  | .missingValue nm => "missing parameter for --" ++ nm
  | .missingRequired nm => "option --" ++ nm ++ " is mandatory"
  | .pacViolation e => pacErrMsg e

/-- Classification of one argument-vector token by the option scanner. -/
inductive ArgClass where
  | terminator
  | long (body : List Char)
  | shorts (c : Char) (cs : List Char)
  | positional
deriving DecidableEq

/-- Modelled from the spec: how the external flat parser classifies a token
(`--` terminator, `--name[=value]` long option, `-xyz` short bundle,
anything else — including a lone `-` — positional). -/
def argClass (a : String) : ArgClass :=
  match a.data with
  | '-' :: '-' :: [] => .terminator
  | '-' :: '-' :: body => .long body
  | '-' :: c :: cs => .shorts c cs
  | _ => .positional

/-- Split the body of a long option at the first `=` into name and value. -/
def splitEqChars : List Char → List Char × Option (List Char)
  | [] => ([], none)
  | '=' :: rest => ([], some rest)
  | c :: rest =>
    let p := splitEqChars rest
    (c :: p.1, p.2)

/-- Process the characters of a short-option bundle: each flag character
fires and scanning continues inside the bundle; a value-taking character
consumes the remainder of the token as its value, or — when the remainder
is empty — requests the next token (`some longName`). Returns the long
names fired, in order. -/
def shortChars (opts : List OptionDesc) : List Char → Except FlatError (List String × Option String)
  | [] => .ok ([], none)
  | c :: cs =>
    match opts.find? (fun o => o.shortName == String.singleton c) with
    | none => .error (.unknownOption (String.mk ['-', c]))
    | some o =>
      if o.isFlag then
        match shortChars opts cs with
        | .error e => .error e
        | .ok (fs, v) => .ok (o.longName :: fs, v)
      else
        match cs with
        | [] => .ok ([o.longName], some o.longName)
        | _ :: _ => .ok ([o.longName], none)

/-- Modelled from the spec: the external Flat Option Parser's scan over the
tokens after the program name. Traditional getopt behavior: consume
recognized option tokens (reporting unknown ones), stop at the first
non-option token or after `--`, and return the remaining tokens as
positional arguments together with the long names of the options that
fired, in order. -/
def scan (opts : List OptionDesc) : List String → Except FlatError (List String × List String)
  | [] => .ok ([], [])
  | a :: rest =>
    match argClass a with
    | .terminator => .ok (rest, [])
    | .long body =>
      let p := splitEqChars body
      match opts.find? (fun o => o.longName == String.mk p.1) with
      | none => .error (.unknownOption a)
      | some o =>
        if o.isFlag || p.2.isSome then
          match scan opts rest with
          | .error e => .error e
          | .ok (ps, fs) => .ok (ps, o.longName :: fs)
        else
          match rest with
          | [] => .error (.missingValue o.longName)
          | _ :: rest2 =>
            match scan opts rest2 with
            | .error e => .error e
            | .ok (ps, fs) => .ok (ps, o.longName :: fs)
    | .shorts c cs =>
      match shortChars opts (c :: cs) with
      | .error e => .error e
      | .ok (fs, none) =>
        match scan opts rest with
        | .error e => .error e
        | .ok (ps, fs2) => .ok (ps, fs ++ fs2)
      | .ok (fs, some nm) =>
        match rest with
        | [] => .error (.missingValue nm)
        | _ :: rest2 =>
          match scan opts rest2 with
          | .error e => .error e
          | .ok (ps, fs2) => .ok (ps, fs ++ fs2)
    | .positional => .ok (a :: rest, [])

/-- The first registered mandatory option whose long name did not fire
(`opt.Mandatory()` enforcement of the external parser). -/
def firstMissingRequired (opts : List OptionDesc) (fired : List String) : Option String :=
  (opts.find? (fun o => o.required && !(fired.contains o.longName))).map (·.longName)

/-- `parserWrapper`: the option set (with documentation and mandatory
marks), its own positional-argument checker, display metadata, and whether
`maybeAddHelpFlags` bound the synthesized help option to the node's help
cell. -/
structure ParserWrapper where
  opts : List OptionDesc
  helpBound : Bool
  pac : PositionalArgumentsChecker
  program : String
  parameters : String
deriving DecidableEq

/-- `parserWrapper.Getopt`: delegate to the flat scanner (skipping the
program name in `args[0]`), enforce mandatory options, then run this
wrapper's own positional checker. On success, also report whether the
help flag bound to the node's help cell fired during this parse. -/
def ParserWrapper.Getopt (pw : ParserWrapper) (args : List String) :
    Except FlatError (List String × Bool) :=
  match scan pw.opts (args.drop 1) with
  | .error e => .error e
  | .ok (positionals, fired) =>
    match firstMissingRequired pw.opts fired with
    | some nm => .error (.missingRequired nm)
    | none =>
      match pw.pac.check positionals.length with
      | some e => .error (.pacViolation e)
      | none => .ok (positionals, pw.helpBound && fired.contains "help")

/-- The option record bound to a command node: a user record with tagged
fields, the internal `subcommandHelp` pseudo-subcommand marker, or the
`HasPrintedHelp` sentinel (which only ever appears in results). -/
inductive OptionsRec where
  | user (fields : List StructField)
  | subcommandHelp
  | hasPrintedHelp
deriving DecidableEq

/-- The fields reflection sees in a record: `subcommandHelp{}` and
`HasPrintedHelp{}` are empty structs. -/
def fieldsOf : OptionsRec → List StructField
  | .user fs => fs
  | .subcommandHelp => []
  | .hasPrintedHelp => []

/-- `CommandParser`: description, transient help-flag cell, name, option
record, positional checker and children (in that order, as in the Go
struct). -/
inductive CommandParser : Type where
  | mk (description : String) (helpCell : Bool) (name : String) (options : OptionsRec)
      (pac : PositionalArgumentsChecker) (subcommands : List CommandParser)

/-- The command description. -/
def CommandParser.description : CommandParser → String
  | .mk d _ _ _ _ _ => d

/-- The command name. -/
def CommandParser.name : CommandParser → String
  | .mk _ _ n _ _ _ => n

/-- The command's option record. -/
def CommandParser.options : CommandParser → OptionsRec
  | .mk _ _ _ o _ _ => o

/-- The command's positional-argument checker. -/
def CommandParser.pac : CommandParser → PositionalArgumentsChecker
  | .mk _ _ _ _ pc _ => pc

/-- The command's children. -/
def CommandParser.subcommands : CommandParser → List CommandParser
  | .mk _ _ _ _ _ subs => subs

@[simp] theorem CommandParser.description_mk (d h n o pc subs) :
    (CommandParser.mk d h n o pc subs).description = d := rfl

@[simp] theorem CommandParser.name_mk (d h n o pc subs) :
    (CommandParser.mk d h n o pc subs).name = n := rfl

@[simp] theorem CommandParser.options_mk (d h n o pc subs) :
    (CommandParser.mk d h n o pc subs).options = o := rfl

@[simp] theorem CommandParser.pac_mk (d h n o pc subs) :
    (CommandParser.mk d h n o pc subs).pac = pc := rfl

@[simp] theorem CommandParser.subcommands_mk (d h n o pc subs) :
    (CommandParser.mk d h n o pc subs).subcommands = subs := rfl

/-- A child is structurally smaller than its parent. -/
theorem CommandParser.sizeOf_lt_of_mem_subcommands {sc p : CommandParser}
    (h : sc ∈ p.subcommands) : sizeOf sc < sizeOf p := by
  cases p with
  | mk d hc n o pc subs =>
    have h2 := List.sizeOf_lt_of_mem (by simpa using h)
    simp only [CommandParser.mk.sizeOf_spec]
    omega

/-- Byte-lexicographic (here: character-lexicographic) `≤` on strings as
char lists, the order Go's `<` on ASCII strings induces. -/
def charListLe : List Char → List Char → Bool
  | [], _ => true
  | _ :: _, [] => false
  | c :: cs, d :: ds =>
    if c.toNat < d.toNat then true
    else if d.toNat < c.toNat then false
    else charListLe cs ds

/-- The name order used by `Subcommand`'s `sort.SliceStable` call
(as the reflexive closure of the strict `<` it is called with). -/
def nameRel (a b : CommandParser) : Prop := charListLe a.name.data b.name.data = true

instance : DecidableRel nameRel := fun _ _ =>
  inferInstanceAs (Decidable (_ = true))

/-- `Subcommand`: build a node with the default positional checker, the
help cell cleared, and the children stably sorted by name
(`sort.SliceStable`; a stable sort is unique, so the stable insertion sort
used here computes exactly what the Go call computes). -/
def Subcommand (name description : String) (options : OptionsRec)
    (subcommands : List CommandParser) : CommandParser :=
  .mk description false name options newPositionalArgumentsChecker
    (subcommands.insertionSort nameRel)

/-- Replace a node's positional checker (the effect of one
`minMaxPositionalArguments` config visit in `LeafSubcommand`). -/
def CommandParser.withPac : CommandParser → PositionalArgumentsChecker → CommandParser
  | .mk d h n o _ subs, pc => .mk d h n o pc subs

/-- `LeafSubcommand`: a `Subcommand` with no children; configs that bound
positional arguments are applied in order (other config kinds are warned
about and ignored by the Go code, so they do not appear here). -/
def LeafSubcommand (name description : String) (options : OptionsRec)
    (config : List PositionalArgumentsChecker) : CommandParser :=
  config.foldl (fun acc c => acc.withPac c) (Subcommand name description options [])

/-- `containsHelp`: does some subcommand have the name `help`? -/
def containsHelp (subcommands : List CommandParser) : Bool :=
  subcommands.any (fun sc => sc.name == "help")

/-- The internal `help` pseudo-subcommand registered by `Command`. -/
def internalHelpCmd : CommandParser :=
  LeafSubcommand "help" "Prints generic or command-specific help" .subcommandHelp []

/-- `Command`: the top-level constructor; appends the internal `help`
pseudo-subcommand unless the caller already supplied a subcommand named
`help`, then defers to `Subcommand` with the program name (`os.Args[0]`,
here an explicit argument). -/
def Command (argv0 description : String) (options : OptionsRec)
    (subcommands : List CommandParser) : CommandParser :=
  Subcommand argv0 description options
    (if containsHelp subcommands then subcommands else subcommands ++ [internalHelpCmd])

/-- `strings.Join` with a separator. -/
def joinSep (sep : String) : List String → String
  | [] => ""
  | [x] => x
  | x :: xs => x ++ sep ++ joinSep sep xs

/-- `CommandParser.fullcmd`: the space-joined names of the chain. -/
def fullcmdOf (chain : List CommandParser) : String :=
  joinSep " " (chain.map (fun c => c.name))

/-- Does the documentation end with a period (`strings.HasSuffix(doc, ".")`)? -/
def ensurePeriod (doc : String) : String :=
  if doc.data.getLast? = some '.' then doc else doc ++ "."

/-- Split a char list at spaces (like `strings.Split(s, " ")`). -/
def splitSpaces : List Char → List (List Char)
  | [] => [[]]
  | ' ' :: rest => [] :: splitSpaces rest
  | c :: rest =>
    match splitSpaces rest with
    | w :: ws => (c :: w) :: ws
    | [] => [[c]]

/-- Modelled from the spec: the external `wordwrap.WrapString` collaborator
followed by splitting at newlines — a greedy word wrap at the given column
width, returned as the list of lines. -/
def wrapWords (s : String) (lim : Nat) : List String :=
  match (splitSpaces s.data).map String.mk with
  | [] => [""]
  | w :: ws =>
    let p := ws.foldl
      (fun (acc : List String × String) wrd =>
        if acc.2.length + 1 + wrd.length ≤ lim then (acc.1, acc.2 ++ " " ++ wrd)
        else (acc.1 ++ [acc.2], wrd)) ([], w)
    p.1 ++ [p.2]

/-- The 13-space-indented, width-64-wrapped documentation block used for
options and subcommand listings. -/
def docBlock (doc : String) : String :=
  String.join ((wrapWords doc 64).map (fun l => "             " ++ l ++ "\n"))

/-- One option as printed by `parserWrapper.printOptions`. -/
def optionLine (o : OptionDesc) : String :=
  (if o.shortName != "" then "  -" ++ o.shortName ++ ", --" ++ o.longName
   else "      --" ++ o.longName)
  ++ (if o.isFlag then "" else " value") ++ "\n"
  ++ docBlock (ensurePeriod o.doc ++ (if o.required then " This option is mandatory." else ""))
  ++ "\n"

/-- `parserWrapper.printOptions`: the `Options:` header and each registered
option in registration order. -/
def printOptionsW (ds : List OptionDesc) : String :=
  "Options:\n\n" ++ String.join (ds.map optionLine)

/-- `CommandParser.hasOptions`: whether building a bare wrapper for this
node's record succeeds and registers at least one option. -/
def hasOptions (p : CommandParser) : Bool :=
  match buildDescriptors (fieldsOf p.options) with
  | .ok ds => decide (0 < countDocs ds)
  | .error _ => false

/-- `CommandParser.positionalArgumentsPlaceholder`. -/
def positionalArgumentsPlaceholder (p : CommandParser) : String :=
  if p.subcommands.length > 0 then " <subcommand> [...]"
  else if p.pac.maxArgs > 1 then " <argument> [<argument> ...]"
  else if p.pac.maxArgs > 0 then " <argument>"
  else ""

/-- `CommandParser.printBriefUsage`: walk the chain appending each name and
an `[options]` marker when that node declares options, then the terminal
node's positional placeholder. -/
def printBriefUsageC (p : CommandParser) (chain : List CommandParser) : String :=
  "\nUsage:"
  ++ String.join (chain.map (fun e =>
      " " ++ e.name ++ (if hasOptions e then " [options]" else "")))
  ++ positionalArgumentsPlaceholder p ++ "\n"

/-- `CommandParser.printSubcommandDescription`: the terminal node's
description, wrapped at width 72 and period-terminated. -/
def printSubcommandDescriptionC (p : CommandParser) : String :=
  "\n" ++ String.join ((wrapWords (ensurePeriod p.description) 72).map (fun l => l ++ "\n"))
  ++ "\n"

/-- `CommandParser.printOptions`: for every node of the chain whose record
builds and registers at least one option, a labeled block (note: each
block carries both the `Options for <name>:` label and the wrapper's own
`Options:` header, exactly as the Go code prints them). -/
def printOptionsC (chain : List CommandParser) : String :=
  String.join (chain.map (fun e =>
    match buildDescriptors (fieldsOf e.options) with
    | .error _ => ""
    | .ok ds =>
      if countDocs ds = 0 then ""
      else "Options for " ++ e.name ++ ":\n\n" ++ printOptionsW ds))

mutual

/-- `CommandParser.printSubcommands`' recursion, as the list of
(full name path, description) entries it prints, in print order. -/
def subcommandEntries : CommandParser → List String → List (List String × String)
  | .mk _ _ _ _ _ subs, names => subEntriesList subs names

/-- The loop inside `CommandParser.printSubcommands`: a leaf child prints
one entry, a child with children recurses with its name appended. -/
def subEntriesList : List CommandParser → List String → List (List String × String)
  | [], _ => []
  | sc :: rest, names =>
    (if sc.subcommands.isEmpty then [(names ++ [sc.name], sc.description)]
     else subcommandEntries sc (names ++ [sc.name]))
    ++ subEntriesList rest names

end

/-- `CommandParser.printSingleSubcommand`: the full name path and the
wrapped description. -/
def printSingleSubcommand (names : List String) (doc : String) : String :=
  "  " ++ joinSep " " names ++ "\n" ++ docBlock (ensurePeriod doc) ++ "\n"

/-- `CommandParser.printSubcommands`: the `Subcommands:` header (only at
the top of the recursion) and the depth-first entries. -/
def printSubcommandsStr (p : CommandParser) (names : List String) : String :=
  if p.subcommands.isEmpty then ""
  else
    (if names.isEmpty then "Subcommands:\n\n" else "")
    ++ String.join ((subcommandEntries p names).map (fun e => printSingleSubcommand e.1 e.2))

/-- `CommandParser.printHelp`: brief usage, description, per-level option
blocks, subcommand index (the wrapper argument of the Go method is unused
by its body and does not appear here). -/
def printHelpText (p : CommandParser) (chain : List CommandParser) : String :=
  printBriefUsageC p chain ++ printSubcommandDescriptionC p
  ++ printOptionsC chain ++ printSubcommandsStr p []

/-- `CommandParser.newParserWrapper`: build descriptors from this node's
record, apply the placeholder and program-name configs (display metadata),
and attach the help flag via `maybeAddHelpFlags`; the full command string
is `fullcmdOf chain` throughout. -/
def CommandParser.newParserWrapperFor (p : CommandParser) (chain : List CommandParser) :
    Except BuildError ParserWrapper :=
  match buildDescriptors (fieldsOf p.options) with
  | .error e => .error e
  | .ok ds =>
    let r := maybeAddHelpFlags ds
    .ok { opts := r.1, helpBound := r.2, pac := newPositionalArgumentsChecker,
          program := fullcmdOf chain, parameters := positionalArgumentsPlaceholder p }

/-- Errors produced by command-line resolution. `pacFailure` carries the
`"<cmd>: for command <name>: <error>"` wrapping of step 4;
`emptyChain` stands for the Go panic on an empty chain;
`rewriteFuelExhausted` cannot occur for the bounded help rewrite of the Go
code and only closes off the explicit fuel of the model. -/
inductive GError where
  | zeroLengthArgv
  | internalBuild (e : BuildError)
  | parseError (e : FlatError)
  | expectedSubcommand
  | noSuchSubcommand
  | pacFailure (cmd : String) (name : String) (e : PacError)
  | emptyChain
  | rewriteFuelExhausted
deriving DecidableEq

/-- Display text of a resolution error (`err.Error()` in Go). -/
def gErrMsg : GError → String
  | .zeroLengthArgv => "passed a zero length argv"
  | .internalBuild e => buildErrMsg e
  | .parseError e => flatErrMsg e
  | .expectedSubcommand => "expected subcommand name"
  | .noSuchSubcommand => "no such subcommand"
  | .pacFailure cmd name e => cmd ++ ": for command " ++ name ++ ": " ++ pacErrMsg e
  | .emptyChain => "called with zero length chain"
  | .rewriteFuelExhausted => "help rewrite fuel exhausted"

/-- `SelectedCommand`: the matched record and the residual positional
arguments. -/
structure SelectedCommand where
  options : OptionsRec
  args : List String
deriving DecidableEq

/-- The full observable outcome of one resolution: the returned value or
error, and the text written to standard output and to standard error. -/
structure GetoptOutcome where
  result : Except GError SelectedCommand
  stdout : String
  stderr : String
deriving DecidableEq

mutual

/-- `CommandParser.getoptall`: the recursive resolution worker. Steps as in
the Go code: 0. panic on an empty chain; 1. build this node's wrapper
(failure reports `<cmd>: internal error: ...`); 2. flat-parse `args`
(failure reports `<cmd>: <error>. See '<fullcmd> --help'.`); 3. a fired
help flag renders full help and succeeds with the `HasPrintedHelp`
sentinel; 4. a leaf checks its positional policy and returns the selected
command; 5. no residual positionals with children left: the root renders
full help and returns the sentinel, any other node fails with `expected
subcommand name`; 6. dispatch on the first positional via the linear
search in `getoptallLoop`. -/
def getoptall : CommandParser → List CommandParser → List String → GetoptOutcome
  | _, [], _ => ⟨.error .emptyChain, "", ""⟩
  | p@(.mk _ _ _ _ _ subs), c0 :: crest, args =>
    match p.newParserWrapperFor (c0 :: crest) with
    | .error e =>
      ⟨.error (.internalBuild e), "",
        c0.name ++ ": internal error: " ++ buildErrMsg e ++ "\n"⟩
    | .ok pw =>
      match pw.Getopt args with
      | .error e =>
        ⟨.error (.parseError e), "",
          c0.name ++ ": " ++ flatErrMsg e ++ ". See '" ++ fullcmdOf (c0 :: crest)
            ++ " --help'.\n"⟩
      | .ok (positionals, helpFired) =>
        if helpFired then
          ⟨.ok ⟨.hasPrintedHelp, []⟩, printHelpText p (c0 :: crest), ""⟩
        else if subs.isEmpty then
          match p.pac.check positionals.length with
          | some e => ⟨.error (.pacFailure c0.name p.name e), "", ""⟩
          | none => ⟨.ok ⟨p.options, positionals⟩, "", ""⟩
        else
          match positionals with
          | [] =>
            if (c0 :: crest).length < 2 then
              ⟨.ok ⟨.hasPrintedHelp, []⟩, printHelpText p (c0 :: crest), ""⟩
            else
              ⟨.error .expectedSubcommand, "",
                c0.name ++ ": expected subcommand name. See '" ++ fullcmdOf (c0 :: crest)
                  ++ " --help'.\n"⟩
          | subcmd :: _ =>
            getoptallLoop subs subcmd c0.name (fullcmdOf (c0 :: crest))
              (c0 :: crest) positionals

/-- Steps 6-7 of `CommandParser.getoptall`: walk the children in order,
skipping names that differ from the selector, recursing into the first
exact match with the chain extended and `args` replaced by the residual
positionals; when no child matches, report `no such subcommand`. -/
def getoptallLoop :
    List CommandParser → String → String → String → List CommandParser → List String →
    GetoptOutcome
  | [], subcmd, cmd, fullcmd, _, _ =>
    ⟨.error .noSuchSubcommand, "",
      cmd ++ ": no such subcommand: '" ++ subcmd ++ "'. See '" ++ fullcmd ++ " --help'.\n"⟩
  | sc :: rest, subcmd, cmd, fullcmd, chain, positionals =>
    if sc.name == subcmd then getoptall sc (chain ++ [sc]) positionals
    else getoptallLoop rest subcmd cmd fullcmd chain positionals

end

/-- `CommandParser.Getopt`: guard against an empty argument vector, run the
recursive walk with the singleton chain, and intercept a selected internal
`help` pseudo-subcommand by re-invoking the whole resolution on
`[program, ...residual, "--help"]`. The Go recursion is bounded (each
rewrite consumes the matched `help` token), which the model makes explicit
with a fuel parameter consumed only by the rewrite. -/
def CommandParser.Getopt (p : CommandParser) : Nat → List String → GetoptOutcome
  | fuel, args =>
    match args with
    | [] => ⟨.error .zeroLengthArgv, "", ""⟩
    | a0 :: _ =>
      let out := getoptall p [p] args
      match out.result with
      | .ok sc =>
        if sc.options = .subcommandHelp then
          match fuel with
          | 0 => ⟨.error .rewriteFuelExhausted, out.stdout, out.stderr⟩
          | f + 1 =>
            let out2 := CommandParser.Getopt p f (a0 :: (sc.args ++ ["--help"]))
            ⟨out2.result, out.stdout ++ out2.stdout, out.stderr ++ out2.stderr⟩
        else out
      | .error _ => out

/-! Sample trees used to instantiate the theorems below (mirroring the
shape of the library's example program). -/

/-- A flag field `Batch bool`, documented, with short name `b`. -/
def batchField : StructField :=
  { name := "Batch", doc := "emit JSON formatted logs", short := "b",
    requiredTag := "", isFlag := true }

/-- A flag field `Verbose Counter`, documented, with short name `v`. -/
def verboseField : StructField :=
  { name := "Verbose", doc := "increases verbosity", short := "v",
    requiredTag := "", isFlag := true }

/-- A value field `Input string`, documented, with short name `i`. -/
def inputField : StructField :=
  { name := "Input", doc := "add URL to measure", short := "i",
    requiredTag := "", isFlag := false }

/-- A flag field `Force bool`, documented, without a short name. -/
def forceField : StructField :=
  { name := "Force", doc := "force using HTTP3", short := "",
    requiredTag := "", isFlag := true }

/-- Leaf `websites`, accepting no positional arguments. -/
def websitesCmd : CommandParser :=
  LeafSubcommand "websites" "checks for blocked websites" (.user [forceField])
    [NoPositionalArguments]

/-- Leaf `im`, accepting no positional arguments. -/
def imCmd : CommandParser :=
  LeafSubcommand "im" "checks for blocked IM apps" (.user []) [NoPositionalArguments]

/-- Subcommand `run` with two leaf children. -/
def runCmd : CommandParser :=
  Subcommand "run" "runs nettests" (.user [inputField]) [websitesCmd, imCmd]

/-- Leaf `list`, accepting no positional arguments. -/
def listCmd : CommandParser :=
  LeafSubcommand "list" "lists available measurements" (.user []) [NoPositionalArguments]

/-- The sample tree: `prog` with `run` (children `websites`, `im`), `list`,
and the auto-injected internal `help`. -/
def sampleTree : CommandParser :=
  Command "prog" "network measurement tool" (.user [batchField, verboseField])
    [runCmd, listCmd]

/-- Leaf `show` demanding exactly one positional argument. -/
def showCmd : CommandParser :=
  LeafSubcommand "show" "shows one result" (.user []) [JustOnePositionalArgument]

/-- A second sample tree whose only user-defined child is `show`. -/
def sampleTree2 : CommandParser :=
  Command "prog" "result tool" (.user []) [showCmd]

/-! Helper lemmas. -/

theorem foldl_or_any (l : List OptionDesc) (b : Bool) :
    l.foldl (fun acc o => acc || o.shortName == "h" || o.longName == "help") b
      = (b || l.any (fun o => o.shortName == "h" || o.longName == "help")) := by
  induction l generalizing b with
  | nil => simp
  | cons o rest ih =>
    rw [List.foldl_cons, ih, List.any_cons]
    simp [Bool.or_assoc]

theorem scan_positional_head (opts : List OptionDesc) (a : String) (rest : List String)
    (h : argClass a = .positional) : scan opts (a :: rest) = .ok (a :: rest, []) := by
  simp [scan, h]

theorem scan_all_positional (opts : List OptionDesc) (l : List String)
    (h : ∀ n, l.head? = some n → argClass n = .positional) : scan opts l = .ok (l, []) := by
  cases l with
  | nil => simp [scan]
  | cons a rest => exact scan_positional_head _ _ _ (h a rfl)

/-! ### C4 — the positional-argument checker -/

/-- C4: for every checker `{minArgs, maxArgs}` (with coherent bounds) and
observed count `n ≥ 0`, `check` returns `TooFewPositionalArguments`
exactly when `n < minArgs`, `TooManyPositionalArguments` exactly when
`n > maxArgs`, and ok otherwise; the default checker (`-1` sentinel below,
`math.MaxInt` above) returns ok for every representable count and is a
different configuration from the none-allowed `{0, 0}` checker, which
rejects a single positional argument. -/
theorem positional_checker_characterization
    (pac : PositionalArgumentsChecker) (n : Nat) (h : pac.minArgs ≤ pac.maxArgs) :
    (pac.check n = some .tooFew ↔ (n : Int) < pac.minArgs)
    ∧ (pac.check n = some .tooMany ↔ (n : Int) > pac.maxArgs)
    ∧ (pac.check n = none ↔ pac.minArgs ≤ (n : Int) ∧ (n : Int) ≤ pac.maxArgs)
    ∧ ((n : Int) ≤ maxInt → newPositionalArgumentsChecker.check n = none)
    ∧ NoPositionalArguments.check 1 = some .tooMany
    ∧ newPositionalArgumentsChecker ≠ NoPositionalArguments := by
  refine ⟨?_, ?_, ?_, ?_, by decide, by decide⟩
  · unfold PositionalArgumentsChecker.check
    split_ifs with h1 h2 <;> simp <;> omega
  · unfold PositionalArgumentsChecker.check
    split_ifs with h1 h2 <;> simp <;> omega
  · unfold PositionalArgumentsChecker.check
    split_ifs with h1 h2 <;> simp <;> omega
  · intro hn
    have hM : maxInt = 9223372036854775807 := by decide
    unfold PositionalArgumentsChecker.check newPositionalArgumentsChecker
    dsimp only
    rw [hM] at hn ⊢
    split_ifs with h1 h2 <;> first | rfl | (exfalso; omega)

/-- Witness for C4 at the exactly-one preset and count `0`. -/
theorem positional_checker_characterization_witness :
    JustOnePositionalArgument.check 0 = some PacError.tooFew :=
  ((positional_checker_characterization JustOnePositionalArgument 0 (by decide)).1).mpr
    (by decide)

/-! ### C10 — empty argument vector -/

/-- C10: for the empty argument vector, `CommandParser.Getopt` returns no
selected command and the `passed a zero length argv` error
(`gErrMsg .zeroLengthArgv`), for every tree and every rewrite fuel. -/
theorem getopt_empty_argv (p : CommandParser) (fuel : Nat) :
    p.Getopt fuel [] = ⟨.error .zeroLengthArgv, "", ""⟩ := by
  cases fuel <;> rfl

/-! ### C9 — help injection -/

/-- C9: `maybeAddHelpFlags` registers the synthesized `-h`, `--help`
option exactly when no already-registered option has short name `h` or
long name `help`; in that case the option set is extended by `helpOption`,
and otherwise it is left unchanged. -/
theorem maybeAddHelpFlags_spec (opts : List OptionDesc) :
    ((maybeAddHelpFlags opts).2 = true ↔ ∀ o ∈ opts, o.shortName ≠ "h" ∧ o.longName ≠ "help")
    ∧ ((maybeAddHelpFlags opts).2 = true → (maybeAddHelpFlags opts).1 = opts ++ [helpOption])
    ∧ ((maybeAddHelpFlags opts).2 = false → (maybeAddHelpFlags opts).1 = opts) := by
  have hkey : (∀ o ∈ opts, o.shortName ≠ "h" ∧ o.longName ≠ "help")
      ↔ opts.any (fun o => o.shortName == "h" || o.longName == "help") = false := by
    rw [List.any_eq_false]
    constructor
    · intro hall o ho
      have := hall o ho
      simp only [Bool.or_eq_true, beq_iff_eq]
      tauto
    · intro hall o ho
      have := hall o ho
      simp only [Bool.or_eq_true, beq_iff_eq] at this
      tauto
  unfold maybeAddHelpFlags
  rw [foldl_or_any]
  simp only [Bool.false_or]
  by_cases h : opts.any (fun o => o.shortName == "h" || o.longName == "help") = true
  · rw [if_pos h]
    dsimp only
    refine ⟨?_, by simp, fun _ => rfl⟩
    constructor
    · intro hx
      exact absurd hx (by simp)
    · intro hall
      rw [hkey.mp hall] at h
      exact absurd h (by simp)
  · rw [if_neg h]
    dsimp only
    have hf := Bool.eq_false_iff.mpr h
    refine ⟨?_, fun _ => rfl, by simp⟩
    constructor
    · intro _
      exact hkey.mpr hf
    · intro _
      rfl

/-- Witness for C9: on an option set with no help-like option the flag is
added; on one that already has `-h` it is not and the set is unchanged. -/
theorem maybeAddHelpFlags_spec_witness :
    (maybeAddHelpFlags []).1 = [helpOption] ∧ (maybeAddHelpFlags [helpOption]).1 = [helpOption] :=
  ⟨(maybeAddHelpFlags_spec []).2.1 ((maybeAddHelpFlags_spec []).1.mpr (by simp)),
   (maybeAddHelpFlags_spec [helpOption]).2.2 (by decide)⟩

/-! ### C7 — missing documentation -/

/-- The record refuting C7 as stated: the first field is documented but
carries an invalid (two-byte) short tag, the second field is undocumented. -/
def cex7 : List StructField :=
  [{ name := "Alpha", doc := "first option", short := "xy", requiredTag := "", isFlag := true },
   { name := "Beta", doc := "", short := "", requiredTag := "", isFlag := true }]

/-- Counterexample for C7: `cex7` contains an undocumented, non-excluded
field, yet descriptor building fails with `InvalidShortName`, not with
`MissingDocumentation` — the earlier field's invalid short tag wins. -/
theorem c7_counterexample :
    (cex7.any (fun f => f.doc == "" && !(f.doc == "-"))) = true
    ∧ buildDescriptors cex7 = .error .invalidShortName
    ∧ BuildError.invalidShortName ≠ BuildError.missingDocumentation := by
  refine ⟨by decide, by decide, by decide⟩

/-- C7 as amended: building fails with `MissingDocumentation` when the
record contains an undocumented, non-excluded field and every field before
it is either excluded (`doc:"-"`) or well-formed; excluded fields are
skipped without error. -/
theorem buildDescriptors_missingDoc_amended :
    ∀ (pre : List StructField) (f : StructField) (post : List StructField),
      f.doc = "" →
      (∀ g ∈ pre, g.doc = "-" ∨ (g.doc ≠ "" ∧ (g.short = "" ∨ g.short.utf8ByteSize = 1))) →
      buildDescriptors (pre ++ f :: post) = .error .missingDocumentation
  | [], f, post, hf, _ => by
    simp [buildDescriptors, hf]
  | g :: gs, f, post, hf, hpre => by
    have ih := buildDescriptors_missingDoc_amended gs f post hf
      (fun x hx => hpre x (by simp [hx]))
    by_cases hd : g.doc = "-"
    · simpa [buildDescriptors, hd] using ih
    · rcases hpre g (by simp) with hdash | ⟨hne, hshort⟩
      · exact absurd hdash hd
      · rcases hshort with hs | hs
        · simp [buildDescriptors, hd, hne, hs, ih]
        · simp [buildDescriptors, hd, hne, hs, ih]

/-- Witness for C7's amended statement: a well-formed field followed by an
undocumented one. -/
theorem buildDescriptors_missingDoc_amended_witness :
    buildDescriptors
      [{ name := "Alpha", doc := "first option", short := "", requiredTag := "", isFlag := true },
       { name := "Beta", doc := "", short := "", requiredTag := "", isFlag := true }]
      = .error .missingDocumentation :=
  buildDescriptors_missingDoc_amended
    [{ name := "Alpha", doc := "first option", short := "", requiredTag := "", isFlag := true }]
    { name := "Beta", doc := "", short := "", requiredTag := "", isFlag := true } [] rfl
    (by decide)

/-! ### C8 — short-name validation -/

/-- The field refuting C8 as stated: a short tag that decodes to exactly
one character (`é`) but occupies two bytes in UTF-8. -/
def cex8 : StructField :=
  { name := "Help", doc := "prints help", short := "é", requiredTag := "", isFlag := true }

/-- Counterexample for C8: `cex8`'s short tag is exactly one character
long, yet descriptor building fails with `InvalidShortName` — the Go code
tests the byte length (`len(shortName) != 1`), not the character count. -/
theorem c8_counterexample :
    cex8.short.length = 1 ∧ buildDescriptors [cex8] = .error .invalidShortName := by
  refine ⟨by decide, by decide⟩

/-- C8 as amended: for a documented, non-excluded field with a non-empty
short tag, building a one-field record fails with `InvalidShortName` if
and only if the tag's UTF-8 byte length differs from 1 (so one-byte tags
succeed and any multi-byte tag — even a single character — fails). -/
theorem buildDescriptors_shortName_bytes (f : StructField)
    (h1 : f.doc ≠ "") (h2 : f.doc ≠ "-") (h3 : f.short ≠ "") :
    (buildDescriptors [f] = .error .invalidShortName ↔ f.short.utf8ByteSize ≠ 1) := by
  by_cases hs : f.short.utf8ByteSize = 1
  · simp [buildDescriptors, h1, h2, h3, hs]
  · simp [buildDescriptors, h1, h2, h3, hs]

/-- Witness for C8's amended statement at the two-byte tag `é`. -/
theorem buildDescriptors_shortName_bytes_witness :
    buildDescriptors [cex8] = .error .invalidShortName :=
  (buildDescriptors_shortName_bytes cex8 (by decide) (by decide) (by decide)).mpr (by decide)


/-! ### Step lemmas for the resolution walk -/

theorem getoptall_build_error (p c0 : CommandParser) (crest : List CommandParser)
    (args : List String) (e : BuildError)
    (hb : p.newParserWrapperFor (c0 :: crest) = .error e) :
    getoptall p (c0 :: crest) args =
      ⟨.error (.internalBuild e), "",
        c0.name ++ ": internal error: " ++ buildErrMsg e ++ "\n"⟩ := by
  cases p with
  | mk d h n o pc subs =>
    simp only [getoptall, hb]

theorem getoptall_parse_error (p c0 : CommandParser) (crest : List CommandParser)
    (args : List String) (pw : ParserWrapper) (e : FlatError)
    (hb : p.newParserWrapperFor (c0 :: crest) = .ok pw)
    (hp : pw.Getopt args = .error e) :
    getoptall p (c0 :: crest) args =
      ⟨.error (.parseError e), "",
        c0.name ++ ": " ++ flatErrMsg e ++ ". See '" ++ fullcmdOf (c0 :: crest)
          ++ " --help'.\n"⟩ := by
  cases p with
  | mk d h n o pc subs =>
    simp only [getoptall, hb, hp]

/-- A fired help flag prints help for the chain and succeeds. -/
theorem getoptall_help_fired (p c0 : CommandParser) (crest : List CommandParser)
    (args : List String) (pw : ParserWrapper) (positionals : List String)
    (hb : p.newParserWrapperFor (c0 :: crest) = .ok pw)
    (hp : pw.Getopt args = .ok (positionals, true)) :
    getoptall p (c0 :: crest) args =
      ⟨.ok ⟨.hasPrintedHelp, []⟩, printHelpText p (c0 :: crest), ""⟩ := by
  cases p with
  | mk d h n o pc subs =>
    simp only [getoptall, hb, hp]
    rfl

/-- With children and a first residual positional, the walk hands over to
the linear child search. -/
theorem getoptall_dispatch (p c0 : CommandParser) (crest : List CommandParser)
    (args : List String) (pw : ParserWrapper) (sub : String) (rest : List String)
    (hb : p.newParserWrapperFor (c0 :: crest) = .ok pw)
    (hp : pw.Getopt args = .ok (sub :: rest, false))
    (hsub : p.subcommands ≠ []) :
    getoptall p (c0 :: crest) args =
      getoptallLoop p.subcommands sub c0.name (fullcmdOf (c0 :: crest)) (c0 :: crest)
        (sub :: rest) := by
  cases p with
  | mk d h n o pc subs =>
    simp only [CommandParser.subcommands_mk] at hsub ⊢
    have hsub' : subs.isEmpty = false := by
      cases subs with
      | nil => exact absurd rfl hsub
      | cons a l => rfl
    simp only [getoptall, hb, hp, hsub']
    rfl

/-- The linear child search recurses into the first exact name match. -/
theorem getoptallLoop_found (l : List CommandParser) (subcmd cmd fullcmd : String)
    (chain : List CommandParser) (pos : List String) (sc : CommandParser)
    (h : l.find? (fun c => c.name == subcmd) = some sc) :
    getoptallLoop l subcmd cmd fullcmd chain pos = getoptall sc (chain ++ [sc]) pos := by
  induction l with
  | nil => simp [List.find?] at h
  | cons c rest ih =>
    by_cases hc : (c.name == subcmd) = true
    · rw [@List.find?_cons_of_pos _ (fun c => c.name == subcmd) c rest hc] at h
      cases h
      simp only [getoptallLoop]
      rw [if_pos hc]
    · rw [@List.find?_cons_of_neg _ (fun c => c.name == subcmd) c rest hc] at h
      simp only [getoptallLoop]
      rw [if_neg hc]
      exact ih h

/-- The linear child search falls through to the `no such subcommand`
report when no child name matches. -/
theorem getoptallLoop_notfound (l : List CommandParser) (subcmd cmd fullcmd : String)
    (chain : List CommandParser) (pos : List String)
    (h : l.find? (fun c => c.name == subcmd) = none) :
    getoptallLoop l subcmd cmd fullcmd chain pos =
      ⟨.error .noSuchSubcommand, "",
        cmd ++ ": no such subcommand: '" ++ subcmd ++ "'. See '" ++ fullcmd
          ++ " --help'.\n"⟩ := by
  induction l with
  | nil => rfl
  | cons c rest ih =>
    rw [List.find?_eq_none] at h
    have hc : ¬(c.name == subcmd) = true := h c (by simp)
    simp only [getoptallLoop]
    rw [if_neg hc]
    exact ih (List.find?_eq_none.mpr (fun x hx => h x (by simp [hx])))

/-! ### C2 — children but no residual positional arguments -/

/-- C2: at a node with children and zero residual positionals after a
clean flat parse (help flag not fired), the root of the walk (chain of
length one) renders full help and succeeds with the `HasPrintedHelp`
sentinel, while any non-root node fails with `expected subcommand name`
and the `See '<fullcmd> --help'` report. -/
theorem resolution_children_no_positionals
    (p c0 : CommandParser) (crest : List CommandParser) (args : List String)
    (pw : ParserWrapper)
    (hb : p.newParserWrapperFor (c0 :: crest) = .ok pw)
    (hp : pw.Getopt args = .ok ([], false))
    (hsub : p.subcommands ≠ []) :
    getoptall p (c0 :: crest) args =
      if crest.isEmpty then ⟨.ok ⟨.hasPrintedHelp, []⟩, printHelpText p (c0 :: crest), ""⟩
      else
        ⟨.error .expectedSubcommand, "",
          c0.name ++ ": expected subcommand name. See '" ++ fullcmdOf (c0 :: crest)
            ++ " --help'.\n"⟩ := by
  cases p with
  | mk d h n o pc subs =>
    simp only [CommandParser.subcommands_mk] at hsub
    have hsub' : subs.isEmpty = false := by
      cases subs with
      | nil => exact absurd rfl hsub
      | cons a l => rfl
    simp only [getoptall, hb, hp, hsub']
    cases crest with
    | nil => rfl
    | cons c1 cs =>
      rw [if_neg (by simp)]
      rfl

/-- Witness for C2: the bare invocation of the sample tree renders full
help and returns the sentinel. -/
theorem resolution_children_no_positionals_witness :
    getoptall sampleTree [sampleTree] ["prog"]
      = ⟨.ok ⟨.hasPrintedHelp, []⟩, printHelpText sampleTree [sampleTree], ""⟩ := by
  have h := resolution_children_no_positionals sampleTree sampleTree [] ["prog"] _ rfl rfl
    (List.ne_nil_of_length_pos (by decide))
  simpa using h

/-! ### C3 — leaf positional policy -/

/-- C3: at a leaf (no children) after a clean flat parse, the leaf's
positional policy decides the outcome: a violation fails resolution with
the `pacFailure` wrapping (`<cmd>: for command <name>: <error>`, rendered
by `gErrMsg`) and no selected command is produced, otherwise the leaf's
option record is paired with exactly the residual positional arguments. -/
theorem resolution_leaf_policy
    (p c0 : CommandParser) (crest : List CommandParser) (args : List String)
    (pw : ParserWrapper) (positionals : List String)
    (hb : p.newParserWrapperFor (c0 :: crest) = .ok pw)
    (hp : pw.Getopt args = .ok (positionals, false))
    (hleaf : p.subcommands = []) :
    getoptall p (c0 :: crest) args =
      match p.pac.check positionals.length with
      | some e => ⟨.error (.pacFailure c0.name p.name e), "", ""⟩
      | none => ⟨.ok ⟨p.options, positionals⟩, "", ""⟩ := by
  cases p with
  | mk d h n o pc subs =>
    simp only [CommandParser.subcommands_mk] at hleaf
    subst hleaf
    simp only [getoptall, hb, hp]
    rfl

/-- Witness for C3 at the exactly-one leaf `show`: zero residuals fail
with too-few, two fail with too-many, one succeeds with that residual. -/
theorem resolution_leaf_policy_witness :
    getoptall showCmd [sampleTree2, showCmd] ["show"]
        = ⟨.error (.pacFailure "prog" "show" .tooFew), "", ""⟩
    ∧ getoptall showCmd [sampleTree2, showCmd] ["show", "a", "b"]
        = ⟨.error (.pacFailure "prog" "show" .tooMany), "", ""⟩
    ∧ getoptall showCmd [sampleTree2, showCmd] ["show", "a"]
        = ⟨.ok ⟨.user [], ["a"]⟩, "", ""⟩ :=
  ⟨resolution_leaf_policy showCmd sampleTree2 [showCmd] ["show"] _ [] rfl rfl rfl,
   resolution_leaf_policy showCmd sampleTree2 [showCmd] ["show", "a", "b"] _ ["a", "b"]
     rfl rfl rfl,
   resolution_leaf_policy showCmd sampleTree2 [showCmd] ["show", "a"] _ ["a"] rfl rfl rfl⟩

/-! ### C5 — no such subcommand -/

/-- C5: at a node with children, when the linear search finds no child
whose name equals the first residual positional argument, resolution fails
with `NoSuchSubcommand` — the error side of the outcome carries no
selected command and the remaining positionals are discarded. -/
theorem resolution_no_such_subcommand
    (p c0 : CommandParser) (crest : List CommandParser) (args : List String)
    (pw : ParserWrapper) (sub : String) (rest : List String)
    (hb : p.newParserWrapperFor (c0 :: crest) = .ok pw)
    (hp : pw.Getopt args = .ok (sub :: rest, false))
    (hsub : p.subcommands ≠ [])
    (hfind : p.subcommands.find? (fun sc => sc.name == sub) = none) :
    getoptall p (c0 :: crest) args =
      ⟨.error .noSuchSubcommand, "",
        c0.name ++ ": no such subcommand: '" ++ sub ++ "'. See '" ++ fullcmdOf (c0 :: crest)
          ++ " --help'.\n"⟩ := by
  rw [getoptall_dispatch p c0 crest args pw sub rest hb hp hsub]
  exact getoptallLoop_notfound _ _ _ _ _ _ hfind

/-- Witness for C5: `["prog", "bogus"]` on the sample tree. -/
theorem resolution_no_such_subcommand_witness :
    getoptall sampleTree [sampleTree] ["prog", "bogus"]
      = ⟨.error .noSuchSubcommand, "",
          "prog: no such subcommand: 'bogus'. See 'prog --help'.\n"⟩ := by
  have h := resolution_no_such_subcommand sampleTree sampleTree [] ["prog", "bogus"] _
    "bogus" [] rfl rfl (List.ne_nil_of_length_pos (by decide)) rfl
  simpa using h

/-! ### C6 — alphabetical children and listing -/

theorem char_lt_iff (c d : Char) : c < d ↔ c.toNat < d.toNat := by
  rw [Char.lt_def]
  exact Iff.rfl

theorem charListLe_not_lt : ∀ xs ys : List Char, charListLe xs ys = true → ¬ List.lt ys xs
  | [], _, _ => fun h => by cases h
  | _ :: _, [], h => by simp [charListLe] at h
  | x :: xs, y :: ys, h => by
    intro hlt
    unfold charListLe at h
    rcases Nat.lt_trichotomy x.toNat y.toNat with h1 | h1 | h1
    · cases hlt with
      | head as bs hyx =>
        rw [char_lt_iff] at hyx
        omega
      | tail hyx hxy hlt2 =>
        rw [char_lt_iff] at hxy
        exact hxy h1
    · rw [if_neg (by omega), if_neg (by omega)] at h
      cases hlt with
      | head as bs hyx =>
        rw [char_lt_iff] at hyx
        omega
      | tail hyx hxy hlt2 =>
        exact charListLe_not_lt xs ys h hlt2
    · rw [if_neg (by omega), if_pos (by omega)] at h
      exact absurd h (by simp)

theorem charListLe_trans : ∀ xs ys zs : List Char,
    charListLe xs ys = true → charListLe ys zs = true → charListLe xs zs = true
  | [], _, _, _, _ => rfl
  | _ :: _, [], _, h1, _ => by simp [charListLe] at h1
  | _ :: _, _ :: _, [], _, h2 => by simp [charListLe] at h2
  | x :: xs, y :: ys, z :: zs, h1, h2 => by
    unfold charListLe at h1 h2 ⊢
    rcases Nat.lt_trichotomy x.toNat y.toNat with hxy | hxy | hxy
    · rcases Nat.lt_trichotomy y.toNat z.toNat with hyz | hyz | hyz
      · rw [if_pos (by omega)]
      · rw [if_pos (by omega)]
      · rw [if_neg (by omega), if_pos (by omega)] at h2
        exact absurd h2 (by simp)
    · rw [if_neg (by omega), if_neg (by omega)] at h1
      rcases Nat.lt_trichotomy y.toNat z.toNat with hyz | hyz | hyz
      · rw [if_pos (by omega)]
      · rw [if_neg (by omega), if_neg (by omega)] at h2
        rw [if_neg (by omega), if_neg (by omega)]
        exact charListLe_trans xs ys zs h1 h2
      · rw [if_neg (by omega), if_pos (by omega)] at h2
        exact absurd h2 (by simp)
    · rw [if_neg (by omega), if_pos (by omega)] at h1
      exact absurd h1 (by simp)

theorem charListLe_total : ∀ xs ys : List Char,
    (charListLe xs ys || charListLe ys xs) = true
  | [], _ => by simp [charListLe]
  | _ :: _, [] => by simp [charListLe]
  | x :: xs, y :: ys => by
    unfold charListLe
    rcases Nat.lt_trichotomy x.toNat y.toNat with h | h | h
    · simp [h]
    · rw [if_neg (by omega), if_neg (by omega), if_neg (by omega), if_neg (by omega)]
      exact charListLe_total xs ys
    · rw [if_neg (by omega), if_pos h, if_pos h]
      simp

instance : IsTrans CommandParser nameRel :=
  ⟨fun _ _ _ h1 h2 => charListLe_trans _ _ _ h1 h2⟩

instance : IsTotal CommandParser nameRel :=
  ⟨fun a b => by
    rcases Bool.or_eq_true_iff.mp (charListLe_total a.name.data b.name.data) with h | h
    · exact Or.inl h
    · exact Or.inr h⟩

theorem nameRel_le {a b : CommandParser} (h : nameRel a b) : a.name ≤ b.name := by
  rw [String.le_iff_toList_le, ← not_lt]
  intro hlt
  exact charListLe_not_lt _ _ h ((List.lt_iff_lex_lt _ _).mpr hlt)

end Getoptx

namespace Getoptx

theorem subEntriesList_shape : ∀ (cs : List CommandParser) (names : List String)
    (e : List String × String), e ∈ subEntriesList cs names → ∃ t, t ≠ [] ∧ e.1 = names ++ t
  | [], names, e => by simp [subEntriesList]
  | sc :: rest, names, e => by
    intro he
    simp only [subEntriesList] at he
    rcases List.mem_append.mp he with h | h
    · by_cases hleaf : sc.subcommands.isEmpty
      · rw [if_pos hleaf] at h
        simp only [List.mem_singleton] at h
        exact ⟨[sc.name], by simp, by simp [h]⟩
      · rw [if_neg hleaf] at h
        rcases sc with ⟨d, hc, n, o, pc, subs2⟩
        simp only [subcommandEntries] at h
        obtain ⟨t, ht, he2⟩ := subEntriesList_shape subs2 _ e h
        refine ⟨CommandParser.name (.mk d hc n o pc subs2) :: t, by simp, ?_⟩
        rw [he2]
        simp
    · exact subEntriesList_shape rest names e h

theorem subEntriesList_headI (cs : List CommandParser) (e : List String × String)
    (he : e ∈ subEntriesList cs []) : ∃ sc ∈ cs, e.1.headI = sc.name := by
  induction cs with
  | nil => simp [subEntriesList] at he
  | cons sc rest ih =>
    simp only [subEntriesList] at he
    rcases List.mem_append.mp he with h | h
    · refine ⟨sc, by simp, ?_⟩
      by_cases hleaf : sc.subcommands.isEmpty
      · rw [if_pos hleaf] at h
        simp only [List.mem_singleton] at h
        simp [h]
      · rw [if_neg hleaf] at h
        rcases sc with ⟨d, hc, n, o, pc, subs2⟩
        simp only [subcommandEntries] at h
        obtain ⟨t, ht, he2⟩ := subEntriesList_shape subs2 _ e h
        rw [he2]
        simp
    · obtain ⟨sc', hsc', hn⟩ := ih h
      exact ⟨sc', by simp [hsc'], hn⟩

theorem subEntriesList_block_headI (sc : CommandParser) (e : List String × String)
    (he : e ∈ (if sc.subcommands.isEmpty then [([] ++ [sc.name], sc.description)]
               else subcommandEntries sc ([] ++ [sc.name]))) :
    e.1.headI = sc.name := by
  by_cases hleaf : sc.subcommands.isEmpty
  · rw [if_pos hleaf] at he
    simp only [List.mem_singleton] at he
    simp [he]
  · rw [if_neg hleaf] at he
    rcases sc with ⟨d, hc, n, o, pc, subs2⟩
    simp only [subcommandEntries] at he
    obtain ⟨t, ht, he2⟩ := subEntriesList_shape subs2 _ e he
    rw [he2]
    simp

theorem subEntriesList_pairwise_headI (cs : List CommandParser)
    (hp : List.Pairwise nameRel cs) :
    List.Pairwise (fun a b : List String × String => a.1.headI ≤ b.1.headI)
      (subEntriesList cs []) := by
  induction cs with
  | nil => simp [subEntriesList]
  | cons sc rest ih =>
    rcases List.pairwise_cons.mp hp with ⟨hrel, hrest⟩
    simp only [subEntriesList]
    apply List.pairwise_append.mpr
    refine ⟨?_, ih hrest, ?_⟩
    · apply List.pairwise_of_forall_mem_list
      intro a ha b hb
      rw [subEntriesList_block_headI sc a ha, subEntriesList_block_headI sc b hb]
    · intro a ha b hb
      rw [subEntriesList_block_headI sc a ha]
      obtain ⟨sc', hsc', hb'⟩ := subEntriesList_headI rest b hb
      rw [hb']
      exact nameRel_le (hrel sc' hsc')

/-- C6: `Subcommand` stores its children sorted in ascending alphabetical
order by name (as a permutation of the given construction order), and the
help renderer's depth-first subcommand listing therefore lists the
subcommands of each level alphabetically: the first name component of the
printed full-path entries is monotone over the whole listing. -/
theorem subcommand_sorted_alphabetical (nm d : String) (o : OptionsRec)
    (subs : List CommandParser) :
    ((Subcommand nm d o subs).subcommands.map CommandParser.name).Sorted (· ≤ ·)
    ∧ ((Subcommand nm d o subs).subcommands).Perm subs
    ∧ ((subcommandEntries (Subcommand nm d o subs) []).map (fun e => e.1.headI)).Sorted
        (· ≤ ·) := by
  have hsorted : List.Pairwise nameRel (subs.insertionSort nameRel) :=
    List.sorted_insertionSort nameRel subs
  refine ⟨?_, ?_, ?_⟩
  · simp only [Subcommand, CommandParser.subcommands_mk]
    rw [List.Sorted, List.pairwise_map]
    exact hsorted.imp nameRel_le
  · simp only [Subcommand, CommandParser.subcommands_mk]
    exact List.perm_insertionSort nameRel subs
  · simp only [Subcommand, subcommandEntries]
    rw [List.Sorted, List.pairwise_map]
    exact subEntriesList_pairwise_headI _ hsorted

end Getoptx

namespace Getoptx

/-- Does the record declare its own help-like option (short `h` or long
`help`)? `true` means it does not (or the record does not build). -/
def noUserHelpOption (o : OptionsRec) : Bool :=
  match buildDescriptors (fieldsOf o) with
  | .ok ds => ds.all (fun d => !(d.shortName == "h") && !(d.longName == "help"))
  | .error _ => true

theorem maybeAddHelpFlags_of_no_help (ds : List OptionDesc)
    (h : ds.all (fun d => !(d.shortName == "h") && !(d.longName == "help")) = true) :
    maybeAddHelpFlags ds = (ds ++ [helpOption], true) := by
  unfold maybeAddHelpFlags
  rw [foldl_or_any]
  simp only [Bool.false_or]
  have hany : ds.any (fun o => o.shortName == "h" || o.longName == "help") = false := by
    rw [List.any_eq_false]
    intro x hx
    have := List.all_eq_true.mp h x hx
    simp only [Bool.and_eq_true, Bool.not_eq_true', beq_eq_false_iff_ne] at this
    simp only [Bool.or_eq_true, beq_iff_eq]
    tauto
  rw [hany]
  simp

theorem find?_congr_pointwise {α : Type} (p q : α → Bool) (l : List α)
    (h : ∀ x ∈ l, p x = q x) : l.find? p = l.find? q := by
  induction l with
  | nil => rfl
  | cons x rest ih =>
    have hx := h x (by simp)
    by_cases hp : p x = true
    · rw [@List.find?_cons_of_pos _ p x rest hp,
        @List.find?_cons_of_pos _ q x rest (hx ▸ hp)]
    · rw [@List.find?_cons_of_neg _ p x rest hp,
        @List.find?_cons_of_neg _ q x rest (fun hc => hp (hx ▸ hc))]
      exact ih (fun y hy => h y (by simp [hy]))

theorem fmr_help_fired_irrelevant (ds : List OptionDesc)
    (h : ∀ d ∈ ds, d.longName ≠ "help") :
    firstMissingRequired (ds ++ [helpOption]) ["help"]
      = firstMissingRequired (ds ++ [helpOption]) [] := by
  unfold firstMissingRequired
  congr 1
  apply find?_congr_pointwise
  intro x hx
  rcases List.mem_append.mp hx with hx | hx
  · have := h x hx
    simp [List.contains, this]
  · simp only [List.mem_singleton] at hx
    subst hx
    simp [helpOption]

theorem find?_longName_help (ds : List OptionDesc)
    (h : ∀ d ∈ ds, d.longName ≠ "help") :
    (ds ++ [helpOption]).find? (fun x => x.longName == "help") = some helpOption := by
  induction ds with
  | nil => rfl
  | cons d rest ih =>
    have hd := h d (by simp)
    rw [List.cons_append,
      @List.find?_cons_of_neg _ (fun x => x.longName == "help") d (rest ++ [helpOption])
        (by simp [hd])]
    exact ih (fun x hx => h x (by simp [hx]))

theorem scan_long_flag (opts : List OptionDesc) (a : String) (body : List Char)
    (rest ps fs : List String) (o : OptionDesc)
    (hclass : argClass a = .long body)
    (hsplit : splitEqChars body = (body, none))
    (hfind : opts.find? (fun x => x.longName == String.mk body) = some o)
    (hflag : o.isFlag = true)
    (hrest : scan opts rest = .ok (ps, fs)) :
    scan opts (a :: rest) = .ok (ps, o.longName :: fs) := by
  simp only [scan]
  rw [hclass]
  simp only [hsplit]
  rw [hfind]
  dsimp only
  rw [hflag]
  simp only [Bool.true_or, if_true]
  rw [hrest]

end Getoptx

namespace Getoptx

theorem Getopt_cons_eq (p : CommandParser) (fuel : Nat) (a0 : String) (rest : List String) :
    p.Getopt fuel (a0 :: rest) =
      match (getoptall p [p] (a0 :: rest)).result with
      | .ok sc =>
        if sc.options = .subcommandHelp then
          match fuel with
          | 0 => ⟨.error .rewriteFuelExhausted, (getoptall p [p] (a0 :: rest)).stdout,
                  (getoptall p [p] (a0 :: rest)).stderr⟩
          | f + 1 =>
            ⟨(p.Getopt f (a0 :: (sc.args ++ ["--help"]))).result,
             (getoptall p [p] (a0 :: rest)).stdout
               ++ (p.Getopt f (a0 :: (sc.args ++ ["--help"]))).stdout,
             (getoptall p [p] (a0 :: rest)).stderr
               ++ (p.Getopt f (a0 :: (sc.args ++ ["--help"]))).stderr⟩
        else getoptall p [p] (a0 :: rest)
      | .error _ => getoptall p [p] (a0 :: rest) := by
  rw [CommandParser.Getopt.eq_def]

theorem getopt_of_getoptall_error (p : CommandParser) (fuel : Nat) (a0 : String)
    (rest : List String) (e : GError) (s1 s2 : String)
    (h : getoptall p [p] (a0 :: rest) = ⟨.error e, s1, s2⟩) :
    p.Getopt fuel (a0 :: rest) = ⟨.error e, s1, s2⟩ := by
  rw [Getopt_cons_eq p fuel a0 rest, h]

theorem getopt_help_intercept (p : CommandParser) (fuel : Nat) (a0 : String)
    (rest : List String) (sc : SelectedCommand)
    (h : getoptall p [p] (a0 :: rest) = ⟨.ok sc, "", ""⟩)
    (hopt : sc.options = .subcommandHelp) :
    p.Getopt (fuel + 1) (a0 :: rest) = p.Getopt fuel (a0 :: (sc.args ++ ["--help"])) := by
  rw [Getopt_cons_eq p (fuel + 1) a0 rest, h]
  dsimp only
  rw [if_pos hopt]
  rfl

end Getoptx

namespace Getoptx

/-- Leaf step of the walk (shared by the claims below): the positional
policy decides between the wrapped failure and the selected command. -/
theorem getoptall_leaf_helper
    (p c0 : CommandParser) (crest : List CommandParser) (args : List String)
    (pw : ParserWrapper) (positionals : List String)
    (hb : p.newParserWrapperFor (c0 :: crest) = .ok pw)
    (hp : pw.Getopt args = .ok (positionals, false))
    (hleaf : p.subcommands = []) :
    getoptall p (c0 :: crest) args =
      match p.pac.check positionals.length with
      | some e => ⟨.error (.pacFailure c0.name p.name e), "", ""⟩
      | none => ⟨.ok ⟨p.options, positionals⟩, "", ""⟩ := by
  cases p with
  | mk d h n o pc subs =>
    simp only [CommandParser.subcommands_mk] at hleaf
    subst hleaf
    simp only [getoptall, hb, hp]
    rfl

theorem pw_getopt_positional (pw : ParserWrapper) (a0 : String) (rest : List String)
    (hrest : ∀ n, rest.head? = some n → argClass n = .positional) :
    pw.Getopt (a0 :: rest) =
      match firstMissingRequired pw.opts [] with
      | some nm => .error (.missingRequired nm)
      | none =>
        match pw.pac.check rest.length with
        | some e => .error (.pacViolation e)
        | none => .ok (rest, false) := by
  unfold ParserWrapper.Getopt
  have hd : (a0 :: rest).drop 1 = rest := rfl
  rw [hd, scan_all_positional _ _ hrest]
  dsimp only
  cases firstMissingRequired pw.opts []
  · dsimp only
    cases pw.pac.check rest.length
    · simp
    · rfl
  · rfl

theorem pw_getopt_only_dashhelp (ds : List OptionDesc) (pw : ParserWrapper) (a0 : String)
    (hopts : pw.opts = ds ++ [helpOption])
    (hnames : ∀ d ∈ ds, d.longName ≠ "help") :
    pw.Getopt [a0, "--help"] =
      match firstMissingRequired pw.opts ["help"] with
      | some nm => .error (.missingRequired nm)
      | none =>
        match pw.pac.check 0 with
        | some e => .error (.pacViolation e)
        | none => .ok ([], pw.helpBound) := by
  unfold ParserWrapper.Getopt
  have hd : ([a0, "--help"]).drop 1 = ["--help"] := rfl
  rw [hd]
  have hscan : scan pw.opts ["--help"] = .ok ([], ["help"]) := by
    have hfind : pw.opts.find? (fun x => x.longName == String.mk ['h','e','l','p'])
        = some helpOption := by
      rw [hopts]
      exact find?_longName_help ds hnames
    have := scan_long_flag pw.opts "--help" ['h','e','l','p'] [] [] [] helpOption rfl rfl
      hfind rfl rfl
    simpa using this
  rw [hscan]
  dsimp only
  simp only [List.length_nil]
  cases firstMissingRequired pw.opts ["help"]
  · dsimp only
    cases pw.pac.check 0
    · simp
    · rfl
  · rfl

theorem default_check_succ_none (k : Nat)
    (h : newPositionalArgumentsChecker.check (k + 1) = none) :
    newPositionalArgumentsChecker.check k = none := by
  have hM : maxInt = 9223372036854775807 := by decide
  unfold PositionalArgumentsChecker.check newPositionalArgumentsChecker at h ⊢
  dsimp only at h ⊢
  rw [hM] at h ⊢
  have hle : ((k : Int) + 1 ≤ 9223372036854775807) := by
    by_contra hc
    push_neg at hc
    rw [if_neg (by omega), if_pos (by push_cast; omega)] at h
    exact Option.noConfusion h
  rw [if_neg (by omega), if_neg (by omega)]

end Getoptx

namespace Getoptx

/-- C1: for a tree whose (first) `help` child is the internal pseudo-
subcommand installed by `Command`, whose root record does not define its
own help option, and for any chain of plain (non-option) arguments `ns`,
resolving `[prog, "help", ...ns]` is the same computation as resolving
`[prog, ...ns, "--help"]`: the internal help pseudo-subcommand is
intercepted after resolution and the whole top-level resolution is
re-invoked on the rewritten vector, so both calls produce identical
outcomes — result, rendered help text and error text alike. -/
theorem getopt_help_rewrite (t : CommandParser) (fuel : Nat) (prog : String)
    (ns : List String)
    (hfind : t.subcommands.find? (fun sc => sc.name == "help") = some internalHelpCmd)
    (hns : ∀ n ∈ ns, argClass n = .positional)
    (hnh : noUserHelpOption t.options = true) :
    t.Getopt (fuel + 1) (prog :: "help" :: ns) = t.Getopt fuel (prog :: (ns ++ ["--help"])) := by
  cases t with
  | mk d hc nm o pc subs =>
    simp only [CommandParser.subcommands_mk] at hfind
    simp only [CommandParser.options_mk] at hnh
    set T := CommandParser.mk d hc nm o pc subs with hT
    cases hb : buildDescriptors (fieldsOf o) with
    | error e =>
      have hbw : ∀ chain, T.newParserWrapperFor chain = .error e := by
        intro chain
        rw [hT]
        simp [CommandParser.newParserWrapperFor, hb]
      rw [getopt_of_getoptall_error T (fuel + 1) prog ("help" :: ns) _ _ _
        (getoptall_build_error T T [] _ e (hbw _))]
      rw [getopt_of_getoptall_error T fuel prog (ns ++ ["--help"]) _ _ _
        (getoptall_build_error T T [] _ e (hbw _))]
    | ok ds =>
      have hds : ds.all (fun x => !(x.shortName == "h") && !(x.longName == "help")) = true := by
        unfold noUserHelpOption at hnh
        rw [hb] at hnh
        exact hnh
      have hma := maybeAddHelpFlags_of_no_help ds hds
      have hnamesds : ∀ x ∈ ds, x.longName ≠ "help" := by
        intro x hx
        have := List.all_eq_true.mp hds x hx
        simp only [Bool.and_eq_true, Bool.not_eq_true', beq_eq_false_iff_ne] at this
        exact this.2
      set pwR : ParserWrapper := ⟨ds ++ [helpOption], true, newPositionalArgumentsChecker, fullcmdOf [T], positionalArgumentsPlaceholder T⟩ with hpwR
      have hopts : pwR.opts = ds ++ [helpOption] := rfl
      have hbw : T.newParserWrapperFor [T] = .ok pwR := by
        rw [hpwR, hT]
        simp only [CommandParser.newParserWrapperFor, CommandParser.options_mk, hb, hma]
      have hpwL := pw_getopt_positional pwR prog ("help" :: ns) (by
        intro x hx
        simp only [List.head?_cons, Option.some.injEq] at hx
        subst hx
        rfl)
      cases hreq : firstMissingRequired pwR.opts [] with
      | some r =>
        have hpwL2 : pwR.Getopt (prog :: "help" :: ns) = .error (.missingRequired r) := by
          rw [hpwL, hreq]
        have hLout := getoptall_parse_error T T [] (prog :: "help" :: ns) pwR
          (.missingRequired r) hbw hpwL2
        cases ns with
        | nil =>
          have hpwR2 : pwR.Getopt [prog, "--help"] = .error (.missingRequired r) := by
            rw [pw_getopt_only_dashhelp ds pwR prog hopts hnamesds]
            rw [fmr_help_fired_irrelevant ds hnamesds]
            rw [← hopts] at *
            rw [hreq]
          have hRout := getoptall_parse_error T T [] [prog, "--help"] pwR
            (.missingRequired r) hbw hpwR2
          simp only [List.nil_append]
          rw [getopt_of_getoptall_error T (fuel + 1) prog ["help"] _ _ _ hLout]
          rw [getopt_of_getoptall_error T fuel prog ["--help"] _ _ _ hRout]
        | cons n1 ns2 =>
          have hpwR2 : pwR.Getopt (prog :: ((n1 :: ns2) ++ ["--help"]))
              = .error (.missingRequired r) := by
            rw [pw_getopt_positional pwR prog ((n1 :: ns2) ++ ["--help"]) (by
              intro x hx
              simp only [List.cons_append, List.head?_cons, Option.some.injEq] at hx
              subst hx
              exact hns n1 (by simp))]
            rw [hreq]
          have hRout := getoptall_parse_error T T [] (prog :: ((n1 :: ns2) ++ ["--help"])) pwR
            (.missingRequired r) hbw hpwR2
          rw [getopt_of_getoptall_error T (fuel + 1) prog ("help" :: n1 :: ns2) _ _ _ hLout]
          rw [getopt_of_getoptall_error T fuel prog ((n1 :: ns2) ++ ["--help"]) _ _ _ hRout]
      | none =>
        cases hpac : pwR.pac.check ("help" :: ns).length with
        | some pe =>
          have hpwL2 : pwR.Getopt (prog :: "help" :: ns) = .error (.pacViolation pe) := by
            rw [hpwL, hreq, hpac]
          have hLout := getoptall_parse_error T T [] (prog :: "help" :: ns) pwR
            (.pacViolation pe) hbw hpwL2
          cases ns with
          | nil =>
            exfalso
            have : pwR.pac.check 1 = none := by
              cases pe <;> rfl
            rw [show (["help"] : List String).length = 1 from rfl] at hpac
            have h1 : pwR.pac.check 1 = some pe := hpac
            cases pe <;> exact Option.noConfusion (this ▸ h1)
          | cons n1 ns2 =>
            have hlen : ((n1 :: ns2) ++ ["--help"]).length = ("help" :: n1 :: ns2).length := by
              simp
            have hpwR2 : pwR.Getopt (prog :: ((n1 :: ns2) ++ ["--help"]))
                = .error (.pacViolation pe) := by
              rw [pw_getopt_positional pwR prog ((n1 :: ns2) ++ ["--help"]) (by
                intro x hx
                simp only [List.cons_append, List.head?_cons, Option.some.injEq] at hx
                subst hx
                exact hns n1 (by simp))]
              rw [hreq, hlen, hpac]
            have hRout := getoptall_parse_error T T [] (prog :: ((n1 :: ns2) ++ ["--help"])) pwR
              (.pacViolation pe) hbw hpwR2
            rw [getopt_of_getoptall_error T (fuel + 1) prog ("help" :: n1 :: ns2) _ _ _ hLout]
            rw [getopt_of_getoptall_error T fuel prog ((n1 :: ns2) ++ ["--help"]) _ _ _ hRout]
        | none =>
          have hpwL2 : pwR.Getopt (prog :: "help" :: ns) = .ok ("help" :: ns, false) := by
            rw [hpwL, hreq, hpac]
          have hsubne : subs ≠ [] := by
            intro h
            rw [h] at hfind
            simp [List.find?] at hfind
          have hTsubs : T.subcommands = subs := rfl
          have hdisp := getoptall_dispatch T T [] (prog :: "help" :: ns) pwR "help" ns hbw
            hpwL2 (by rw [hTsubs]; exact hsubne)
          have hloop := getoptallLoop_found T.subcommands "help" T.name (fullcmdOf [T]) [T]
            ("help" :: ns) internalHelpCmd (by rw [hTsubs]; exact hfind)
          have hpacInner : newPositionalArgumentsChecker.check ns.length = none :=
            default_check_succ_none ns.length hpac
          set pwH : ParserWrapper := ⟨[helpOption], true, newPositionalArgumentsChecker, fullcmdOf [T, internalHelpCmd], positionalArgumentsPlaceholder internalHelpCmd⟩ with hpwHdef
          have hbw2 : internalHelpCmd.newParserWrapperFor [T, internalHelpCmd] = .ok pwH := by
            rw [hpwHdef]
            rfl
          have hpwH : pwH.Getopt ("help" :: ns) = .ok (ns, false) := by
            rw [pw_getopt_positional pwH "help" ns (by
              intro x hx
              cases ns with
              | nil => simp at hx
              | cons a l =>
                simp only [List.head?_cons, Option.some.injEq] at hx
                subst hx
                exact hns a (by simp))]
            rw [show firstMissingRequired pwH.opts [] = none from rfl]
            rw [show pwH.pac = newPositionalArgumentsChecker from rfl]
            rw [hpacInner]
          have hinner : getoptall internalHelpCmd ([T] ++ [internalHelpCmd]) ("help" :: ns)
              = ⟨.ok ⟨.subcommandHelp, ns⟩, "", ""⟩ := by
            simp only [List.cons_append, List.nil_append]
            rw [getoptall_leaf_helper internalHelpCmd T [internalHelpCmd] ("help" :: ns)
              _ ns hbw2 hpwH rfl]
            rw [show internalHelpCmd.pac = newPositionalArgumentsChecker from rfl, hpacInner]
            rfl
          have hgetL : getoptall T [T] (prog :: "help" :: ns)
              = ⟨.ok ⟨.subcommandHelp, ns⟩, "", ""⟩ := by
            rw [hdisp, hloop, hinner]
          exact getopt_help_intercept T fuel prog ("help" :: ns) ⟨.subcommandHelp, ns⟩
            hgetL rfl

end Getoptx

namespace Getoptx

set_option maxRecDepth 100000 in
/-- Witness for C1 on the sample tree: `prog help run websites` is the
same computation as `prog run websites --help`, and that computation
returns the `HasPrintedHelp` sentinel. -/
theorem getopt_help_rewrite_witness :
    sampleTree.Getopt 1 ["prog", "help", "run", "websites"]
      = sampleTree.Getopt 0 ["prog", "run", "websites", "--help"]
    ∧ (sampleTree.Getopt 0 ["prog", "run", "websites", "--help"]).result
      = .ok ⟨.hasPrintedHelp, []⟩ :=
  ⟨getopt_help_rewrite sampleTree 0 "prog" ["run", "websites"] rfl (by decide) (by decide),
   by decide⟩

end Getoptx
